import Mathlib

/-!
Verification of the table-aware document chunker
(`BankingDocumentSplitter` in the banking RAG repository).

Text is modelled as `List Char`; JavaScript string indices become `Nat`
offsets.  JavaScript's `String.prototype.slice`, `indexOf('\n', i)` and
`lastIndexOf('\n', i)` are embedded directly.  The stateful global-flag
regular expressions of `tablePatterns` are embedded as matchers returning
the end offset of the match starting at a given position, together with an
explicit `lastIndex` threading that mirrors `RegExp.exec` on a `g`-flag
pattern (a failing `exec` resets `lastIndex` to 0).

The `while` loops of the source that are not structurally terminating are
given explicit fuel and return `Option`; `none` models divergence (or
exhausted fuel).  The backward-expansion loop of `expandTableContext`
genuinely diverges on common inputs, which several theorems below exhibit.
-/

namespace Banking

/-- JavaScript whitespace (`\s`, and the characters trimmed by
`String.prototype.trim`), restricted to the ASCII range used here. -/
def isWSChar (c : Char) : Bool :=
  c = ' ' || c = '\t' || c = '\n' || c = '\r' || c = '\x0b' || c = '\x0c'

/-- `String.prototype.trim`: drop whitespace from both ends. -/
def trimWS (l : List Char) : List Char :=
  ((l.dropWhile isWSChar).reverse.dropWhile isWSChar).reverse

/-- Characters of the separator-row character class `[\|\-\:\s]`. -/
def isSepBodyChar (c : Char) : Bool :=
  c = '|' || c = '-' || c = ':' || isWSChar c

/-- `text.slice(s, e)` for `0 ≤ s ≤ e` (JavaScript returns `""` when `s ≥ e`,
which `Nat` subtraction reproduces). -/
def slice (t : List Char) (s e : Nat) : List Char :=
  (t.drop s).take (e - s)

/-- Length of the maximal run of characters satisfying `p` starting at `i`. -/
def runLen (p : Char → Bool) (t : List Char) (i : Nat) : Nat :=
  ((t.drop i).takeWhile p).length

/-- `text.lastIndexOf('\n', i)`: the largest position `≤ i` holding `'\n'`. -/
def lastNLAt (t : List Char) : Nat → Option Nat
  | 0 => if t[0]? = some '\n' then some 0 else none
  | i + 1 => if t[i+1]? = some '\n' then some (i + 1) else lastNLAt t i

/-- `findLineStart` of the source: `lastIndexOf('\n', index)` mapped to the
start of that line (`0` when there is no preceding newline). -/
def findLineStart (t : List Char) (i : Nat) : Nat :=
  match lastNLAt t i with
  | none => 0
  | some j => j + 1

/-- First `'\n'` at absolute position `≥ k` in `rest = t.drop k`. -/
def firstNLFrom : List Char → Nat → Option Nat
  | [], _ => none
  | c :: cs, k => if c = '\n' then some k else firstNLFrom cs (k + 1)

/-- `findLineEnd` of the source: `indexOf('\n', index)`, or `text.length`
when there is none. -/
def findLineEnd (t : List Char) (i : Nat) : Nat :=
  match firstNLFrom (t.drop i) i with
  | none => t.length
  | some j => j

/-- Split a character list into its `'\n'`-separated line segments. -/
def linesOf : List Char → List (List Char)
  | [] => [[]]
  | c :: cs =>
    let r := linesOf cs
    if c = '\n' then [] :: r else (c :: r.headD []) :: r.tail

/-- `/\|.*\|/.test(line)`: some line segment contains two `'|'`. -/
def hasPipePair (l : List Char) : Bool :=
  (linesOf l).any (fun seg => 2 ≤ seg.countP (· = '|'))

/-- `/^[\|\s]*[\|\-\:\s]+[\|\s]*$/.test(line.trim())`: the trimmed line is
nonempty and consists only of pipes, dashes, colons and whitespace (the
first and last character classes are subsets of the middle one, so the
regex denotes exactly that language). -/
def isSepOnly (l : List Char) : Bool :=
  let tr := trimWS l
  !tr.isEmpty && tr.all isSepBodyChar

/-- `isTableLine` of the source. -/
def isTableLine (l : List Char) : Bool :=
  isSepOnly l || hasPipePair l

/-- Chunk metadata: `{}` for generic text chunks, or
`{type: 'table', header, table_content}` for table chunks. -/
inductive DocMeta where
  | plain : DocMeta
  | table : List Char → List Char → DocMeta
deriving DecidableEq

/-- A LangChain `Document` as produced by the splitter: its `pageContent`
and its metadata. -/
structure Doc where
  pageContent : List Char
  metadata : DocMeta
deriving DecidableEq

/-- A detected table section `{start, end, header}`; the source field `end`
is called `stop` here because `end` is a Lean keyword. -/
structure TableSection where
  start : Nat
  stop : Nat
  header : List Char
deriving DecidableEq

/-- Match of `/Table \d+\.\d+/` starting exactly at `i`: literal `"Table "`,
a maximal nonempty digit run, `'.'`, a maximal nonempty digit run.  Returns
the end offset of the match. -/
def matchTableCaption (t : List Char) (i : Nat) : Option Nat :=
  if "Table ".data.isPrefixOf (t.drop i) then
    let r1 := runLen Char.isDigit t (i + 6)
    if r1 = 0 then none
    else if t[i + 6 + r1]? = some '.' then
      let r2 := runLen Char.isDigit t (i + 6 + r1 + 1)
      if r2 = 0 then none else some (i + 6 + r1 + 1 + r2)
    else none
  else none

/-- Match of `/Schedule [A-Z]+/` starting exactly at `i`. -/
def matchSchedule (t : List Char) (i : Nat) : Option Nat :=
  if "Schedule ".data.isPrefixOf (t.drop i) then
    let r := runLen Char.isUpper t (i + 9)
    if r = 0 then none else some (i + 9 + r)
  else none

/-- Match of `/Exhibit \d+/` starting exactly at `i`. -/
def matchExhibit (t : List Char) (i : Nat) : Option Nat :=
  if "Exhibit ".data.isPrefixOf (t.drop i) then
    let r := runLen Char.isDigit t (i + 8)
    if r = 0 then none else some (i + 8 + r)
  else none

/-- Match of `/\|.*\|/` starting exactly at `i`: a `'|'` at `i` and, `.`
being greedy and not crossing `'\n'`, the match ends just after the last
`'|'` on the same line (there must be a second one). -/
def matchPipeRow (t : List Char) (i : Nat) : Option Nat :=
  if t[i]? = some '|' then
    let nl := findLineEnd t (i + 1)
    match ((List.range' (i + 1) (nl - (i + 1))).filter
        (fun q => t[q]? = some '|')).getLast? with
    | some q => some (q + 1)
    | none => none
  else none

/-- Match of `/^[\|\s]*[-\s\|\:]+[\|\s]*$/m` starting exactly at `i`.
`i` must be a line start; with `\s` containing `'\n'` the greedy run of
class characters may span lines, and backtracking settles on the largest
line-end position inside the run (the run's end itself when it is the end
of the text, since the character after a maximal run is never `'\n'`). -/
def matchSepRow (t : List Char) (i : Nat) : Option Nat :=
  if i = 0 || t[i - 1]? = some '\n' then
    let m := runLen isSepBodyChar t i
    if m = 0 then none
    else if i + m = t.length then some (i + m)
    else
      match ((List.range' (i + 1) (m - 1)).filter
          (fun j => t[j]? = some '\n')).getLast? with
      | some j => some j
      | none => none
  else none

/-- The five `tablePatterns` of the source, in declaration order. -/
def tablePatterns : List (List Char → Nat → Option Nat) :=
  [matchTableCaption, matchSchedule, matchExhibit, matchPipeRow, matchSepRow]

/-- `RegExp.exec` scanning: the first position `p ≥ li` where the pattern
matches, with the match's end offset. -/
def findMatchFrom (m : List Char → Nat → Option Nat) (t : List Char)
    (li : Nat) : Option (Nat × Nat) :=
  (List.range' li (t.length + 1 - li)).findSome?
    (fun p => (m t p).map (fun e => (p, e)))

/-- The `while ((match = pattern.exec(text)) !== null)` loop: from
`lastIndex = li` collect `(start, end)` pairs, setting `lastIndex` to each
match's end.  `none` models a loop that does not finish within `fuel`
steps (our matchers always advance, so `t.length + 2` steps suffice). -/
def execAllAux (m : List Char → Nat → Option Nat) (t : List Char) :
    Nat → Nat → Option (List (Nat × Nat))
  | 0, _ => none
  | fuel + 1, li =>
    match findMatchFrom m t li with
    | none => some []
    | some (p, e) => (execAllAux m t fuel e).map (fun rest => (p, e) :: rest)

/-- All matches of one global pattern starting from `lastIndex = li`. -/
def execAll (m : List Char → Nat → Option Nat) (t : List Char) (li : Nat) :
    Option (List (Nat × Nat)) :=
  execAllAux m t (t.length + 2) li

/-- Run every pattern over the text.  `st` is the list of the patterns'
`lastIndex` values (the mutable state of the instance's global regexes);
the returned state records that each exhausted `exec` loop has reset its
pattern's `lastIndex` to 0. -/
def execPatterns (t : List Char) :
    List (List Char → Nat → Option Nat) → List Nat →
    Option (List (Nat × Nat) × List Nat)
  | [], _ => some ([], [])
  | m :: ms, st =>
    match execAll m t (st.headD 0), execPatterns t ms st.tail with
    | some ms1, some (rest, sts) => some (ms1 ++ rest, 0 :: sts)
    | _, _ => none

/-- The condition of the backward-expansion `while` loop of
`expandTableContext`. -/
def backCond (t : List Char) (prevLine : Nat) : Bool :=
  decide (0 < prevLine) && isTableLine (slice t prevLine (findLineEnd t prevLine))

/-- Backward half of `expandTableContext`: while the line starting at
`prevLine` looks like a table line and is not the first line, move `start`
up to it and recompute `prevLine = findLineStart(text, start - 1)`.
The source loop diverges whenever the condition holds, because
`findLineStart(text, start - 1)` lands back on `start`; hence the fuel. -/
def expandBack (t : List Char) : Nat → Nat → Nat → Option Nat
  | start, prevLine, 0 =>
    if backCond t prevLine then none else some start
  | start, prevLine, fuel + 1 =>
    if backCond t prevLine then
      expandBack t prevLine (findLineStart t (prevLine - 1)) fuel
    else some start

/-- The condition of the forward-expansion `while` loop. -/
def fwdCond (t : List Char) (nextLine : Nat) : Bool :=
  decide (nextLine < t.length) &&
    isTableLine (slice t (findLineStart t nextLine) nextLine)

/-- Forward half of `expandTableContext`: while the slice from
`findLineStart(text, nextLine)` to `nextLine` looks like a table line, move
`end` to `nextLine` and recompute `nextLine = findLineEnd(text, end + 1)`. -/
def expandFwdAux (t : List Char) : Nat → Nat → Nat → Option Nat
  | en, nextLine, 0 =>
    if fwdCond t nextLine then none else some en
  | en, nextLine, fuel + 1 =>
    if fwdCond t nextLine then
      expandFwdAux t nextLine (findLineEnd t (nextLine + 1)) fuel
    else some en

/-- Forward expansion with enough fuel for its strictly advancing loop. -/
def expandFwd (t : List Char) (en nextLine : Nat) : Option Nat :=
  expandFwdAux t en nextLine (t.length + 2)

/-- `expandTableContext` of the source: expand the seed offset backward and
forward to a `{start, end}` span.  `none` models divergence. -/
def expandTableContext (t : List Char) (startIndex : Nat) (fuel : Nat) :
    Option (Nat × Nat) :=
  match expandBack t startIndex (findLineStart t startIndex) fuel,
      expandFwd t startIndex (findLineEnd t startIndex) with
  | some s, some e => some (s, e)
  | _, _ => none

/-- Ordering of sections by start offset, as used by
`sections.sort((a, b) => a.start - b.start)`. -/
def secLE (a b : TableSection) : Prop :=
  a.start ≤ b.start

instance : DecidableRel secLE := fun a b => Nat.decLe a.start b.start

instance : IsTotal TableSection secLE :=
  ⟨fun a b => Nat.le_total a.start b.start⟩

instance : IsTrans TableSection secLE :=
  ⟨fun _ _ _ hab hbc => Nat.le_trans hab hbc⟩

/-- Folding a section into the currently open one:
`last.end = Math.max(last.end, current.end)` and
`last.header += ", " + current.header`. -/
def mergedSec (last cur : TableSection) : TableSection :=
  { start := last.start, stop := max last.stop cur.stop,
    header := last.header ++ ", ".data ++ cur.header }

/-- The merging loop of `mergeOverlappingSections`: `last` is the most
recently emitted (still mutable) section; a following section whose start
is within `last.end + 50` is folded into it (`end` maxed, headers
comma-joined), otherwise `last` is frozen and the following section becomes
the new `last`. -/
def mergeLoop : TableSection → List TableSection → List TableSection
  | last, [] => [last]
  | last, cur :: rest =>
    if cur.start ≤ last.stop + 50 then mergeLoop (mergedSec last cur) rest
    else last :: mergeLoop cur rest

/-- `mergeOverlappingSections` of the source: stable-sort by start offset
(JavaScript `Array.prototype.sort` is stable, like insertion sort), then
merge sections whose gap is at most 50 characters. -/
def mergeOverlappingSections (sections : List TableSection) :
    List TableSection :=
  match List.insertionSort secLE sections with
  | [] => []
  | s :: rest => mergeLoop s rest

/-- `createTableChunk` of the source: up to 200 characters of context on
each side, `[TABLE: header]` / `[END TABLE]` markers, and table metadata
(`Nat` subtraction realizes `Math.max(0, start - 200)`). -/
def createTableChunk (t : List Char) (s e : Nat) (header : List Char) : Doc :=
  let tableText := slice t s e
  let contextBefore := slice t (s - 200) s
  let contextAfter := slice t e (min t.length (e + 200))
  { pageContent :=
      contextBefore ++ "\n\n[TABLE: ".data ++ header ++ "]\n".data ++
        tableText ++ "\n[END TABLE]\n\n".data ++ contextAfter,
    metadata := DocMeta.table header tableText }

/-- Expand every detection seed `(start, end)` of the exec loops into a
section `{start, end, header = match[0]}` via `expandTableContext`;
divergence of any expansion makes the whole call diverge. -/
def expandSeeds (t : List Char) (fuel : Nat) :
    List (Nat × Nat) → Option (List TableSection)
  | [] => some []
  | (p, e) :: rest =>
    match expandTableContext t p fuel, expandSeeds t fuel rest with
    | some (s, en), some others =>
      some ({ start := s, stop := en, header := slice t p e } :: others)
    | _, _ => none

/-- `findTableSections` of the source, run on a fresh instance (every
pattern's `lastIndex` is 0): collect seeds from all patterns, expand each,
then merge. -/
def findTableSections (t : List Char) (fuel : Nat) :
    Option (List TableSection) :=
  match execPatterns t tablePatterns [0, 0, 0, 0, 0] with
  | none => none
  | some (seeds, _) =>
    (expandSeeds t fuel seeds).map mergeOverlappingSections

/-- The emission loop of `splitTextIntoDocuments`: generic chunks (via
`cd`, standing for `super.createDocuments`) for the gap before each table
section, one table chunk per section, then generic chunks for the trailing
text. -/
def emitChunks (cd : List Char → List Doc) (t : List Char) :
    Nat → List TableSection → List Doc
  | lastIndex, [] =>
    if lastIndex < t.length then cd (slice t lastIndex t.length) else []
  | lastIndex, s :: rest =>
    (if lastIndex < s.start then cd (slice t lastIndex s.start) else []) ++
      (createTableChunk t s.start s.stop s.header :: emitChunks cd t s.stop rest)

/-- `splitTextIntoDocuments` with the regex `lastIndex` state `st` made
explicit: returns the chunks and the instance's post-call state.  `cd` is
the inherited generic recursive splitter `super.createDocuments ∘ pure`. -/
def splitStateful (cd : List Char → List Doc) (t : List Char) (fuel : Nat)
    (st : List Nat) : Option (List Doc × List Nat) :=
  match execPatterns t tablePatterns st with
  | none => none
  | some (seeds, st') =>
    match expandSeeds t fuel seeds with
    | none => none
    | some secs =>
      match mergeOverlappingSections secs with
      | [] => some (cd t, st')
      | s :: rest => some (emitChunks cd t 0 (s :: rest), st')

/-- `splitTextIntoDocuments` of the source on a fresh
`BankingDocumentSplitter` instance. -/
def splitTextIntoDocuments (cd : List Char → List Doc) (t : List Char)
    (fuel : Nat) : Option (List Doc) :=
  (splitStateful cd t fuel [0, 0, 0, 0, 0]).map (fun p => p.1)

/-- First offset at which `sep` occurs in `t`. -/
def firstOccur (sep t : List Char) : Option Nat :=
  (List.range (t.length + 1)).find? (fun i => sep.isPrefixOf (t.drop i))

/-- Cut `t` after each occurrence of `sep` (separators stay attached to the
piece on their left, so concatenation is lossless).  The fuel is always
sufficient because each cut consumes at least one character. -/
def splitAfterSepAux (sep : List Char) : Nat → List Char → List (List Char)
  | 0, t => [t]
  | fuel + 1, t =>
    if sep.isEmpty then [t]
    else
      match firstOccur sep t with
      | none => [t]
      | some i =>
        t.take (i + sep.length) ::
          splitAfterSepAux sep fuel (t.drop (i + sep.length))

/-- Split `t` at a nonempty boundary separator. -/
def splitAfterSep (sep t : List Char) : List (List Char) :=
  splitAfterSepAux sep (t.length + 1) t

/-- Modelled from the spec: the recursive boundary pass of the generic
recursive splitter (LangChain's `RecursiveCharacterTextSplitter`, a
third-party dependency whose source is not under `src/`): split at the
first applicable separator of the hierarchy (paragraph, line, pipe, word,
character for this instance), keep pieces not exceeding the chunk size and
recurse into larger pieces with the finer separators. -/
def recSplit (cs : Nat) : List (List Char) → List Char → List (List Char)
  | [], t => if t.isEmpty then [] else [t]
  | sep :: rest, t =>
    let raw := if sep.isEmpty then t.map (fun c => [c]) else splitAfterSep sep t
    let pieces := raw.filter (fun p => !p.isEmpty)
    (pieces.map (fun p =>
      if p.length ≤ cs then [p] else recSplit cs rest p)).flatten

/-- Modelled from the spec: greedy re-packing of boundary pieces into
chunks of at most the target chunk size (a piece larger than the chunk
size stands alone). -/
def packPieces (cs : Nat) : List Char → List (List Char) → List (List Char)
  | acc, [] => if acc.isEmpty then [] else [acc]
  | acc, p :: ps =>
    if !acc.isEmpty && cs < acc.length + p.length then
      acc :: packPieces cs p ps
    else packPieces cs (acc ++ p) ps

/-- Modelled from the spec: prepend to each chunk the last `co` characters
of its predecessor (the configured overlap between adjacent chunks). -/
def addOverlapGo (co : Nat) : List Char → List (List Char) → List (List Char)
  | _, [] => []
  | prev, c :: rest => (prev.drop (prev.length - co) ++ c) :: addOverlapGo co c rest

/-- Overlap pass over a chunk sequence. -/
def addOverlap (co : Nat) : List (List Char) → List (List Char)
  | [] => []
  | c :: rest => c :: addOverlapGo co c rest

/-- The separator hierarchy the `BankingDocumentSplitter` constructor
passes to its superclass: `['\n\n', '\n', '|', ' ', '']`. -/
def bankingSeps : List (List Char) :=
  [['\n', '\n'], ['\n'], ['|'], [' '], []]

/-- Modelled from the spec: the generic recursive splitter
(`createDocuments` of the superclass, absent from `src/`) as a pure
function from text to generic chunks: recursive boundary splitting, greedy
packing to `chunkSize`, overlap of `chunkOverlap`, plain metadata. -/
def splitPlain (cs co : Nat) (seps : List (List Char)) (t : List Char) :
    List Doc :=
  (addOverlap co (packPieces cs [] (recSplit cs seps t))).map
    (fun c => { pageContent := c, metadata := DocMeta.plain })

/-- The table metadata of a chunk: `(header, table_content)`. -/
def tableMetaOf : Doc → Option (List Char × List Char)
  | { pageContent := _, metadata := DocMeta.table h tc } => some (h, tc)
  | _ => none

/-- Substring containment (`tableContent` "contains the matched text
verbatim"). -/
def containsSeq (needle hay : List Char) : Bool :=
  (List.range (hay.length + 1)).any (fun i => needle.isPrefixOf (hay.drop i))

/-- Sorted-and-disjoint relation between sections: starts are ordered and
the earlier section ends strictly before the later one starts. -/
def secR (a b : TableSection) : Prop :=
  a.start ≤ b.start ∧ a.stop < b.start

/-- When the backward-expansion condition holds at a line start `p` and
`findLineStart (t, p - 1)` lands back on `p` (which it always does when
`p` is a genuine line start, since `t[p-1] = '\n'`), the loop never makes
progress: it diverges for every fuel. -/
theorem expandBack_fix (t : List Char) (p : Nat) (hc : backCond t p = true)
    (hf : findLineStart t (p - 1) = p) :
    ∀ (fuel s : Nat), expandBack t s p fuel = none := by
  intro fuel
  induction fuel with
  | zero => intro s; simp [expandBack, hc]
  | succ n ih =>
    intro s
    show (if backCond t p then
        expandBack t p (findLineStart t (p - 1)) n else some s) = none
    rw [if_pos hc, hf]
    exact ih p

/-- Every terminating pass of the exec loops leaves all pattern
`lastIndex` registers at 0. -/
theorem execPatterns_state (t : List Char) :
    ∀ (ms : List (List Char → Nat → Option Nat)) (st : List Nat)
      (s : List (Nat × Nat)) (st' : List Nat),
      execPatterns t ms st = some (s, st') → st' = List.replicate ms.length 0 := by
  intro ms
  induction ms with
  | nil =>
    intro st s st' h
    simp [execPatterns] at h
    exact h.2
  | cons m ms ih =>
    intro st s st' h
    unfold execPatterns at h
    cases h1 : execAll m t (st.headD 0) with
    | none => rw [h1] at h; exact absurd h (by simp)
    | some ms1 =>
      cases h2 : execPatterns t ms st.tail with
      | none => rw [h1, h2] at h; exact absurd h (by simp)
      | some pr =>
        rw [h1, h2] at h
        obtain ⟨rest, sts⟩ := pr
        simp at h
        rw [← h.2, ih st.tail rest sts h2]
        simp [List.replicate_succ]

/-- Inside `mergeLoop`, every emitted section starts no earlier than the
current accumulator section (the input being sorted by start). -/
theorem mergeLoop_start_le :
    ∀ (rest : List TableSection) (c y : TableSection),
      List.Pairwise secLE (c :: rest) → y ∈ mergeLoop c rest →
      c.start ≤ y.start := by
  intro rest
  induction rest with
  | nil =>
    intro c y _ hy
    simp [mergeLoop] at hy
    exact hy ▸ Nat.le_refl _
  | cons cur rest ih =>
    intro c y hp hy
    rcases List.pairwise_cons.mp hp with ⟨hhead, htail⟩
    unfold mergeLoop at hy
    by_cases hgap : cur.start ≤ c.stop + 50
    · rw [if_pos hgap] at hy
      have hp' : List.Pairwise secLE (mergedSec c cur :: rest) := by
        refine List.pairwise_cons.mpr ⟨?_, (List.pairwise_cons.mp htail).2⟩
        intro x hx
        exact hhead x (List.mem_cons_of_mem _ hx)
      exact ih (mergedSec c cur) y hp' hy
    · rw [if_neg hgap] at hy
      rcases List.mem_cons.mp hy with hy | hy
      · exact hy ▸ Nat.le_refl _
      · exact Nat.le_trans (hhead cur (List.mem_cons_self _ _)) (ih cur y htail hy)

/-- `mergeLoop` output on a start-sorted input is sorted by start with
strictly separated (disjoint) sections. -/
theorem mergeLoop_pairwise :
    ∀ (rest : List TableSection) (c : TableSection),
      List.Pairwise secLE (c :: rest) →
      List.Pairwise secR (mergeLoop c rest) := by
  intro rest
  induction rest with
  | nil => intro c _; simp [mergeLoop]
  | cons cur rest ih =>
    intro c hp
    rcases List.pairwise_cons.mp hp with ⟨hhead, htail⟩
    unfold mergeLoop
    by_cases hgap : cur.start ≤ c.stop + 50
    · rw [if_pos hgap]
      refine ih (mergedSec c cur) ?_
      refine List.pairwise_cons.mpr ⟨?_, (List.pairwise_cons.mp htail).2⟩
      intro x hx
      exact hhead x (List.mem_cons_of_mem _ hx)
    · rw [if_neg hgap]
      refine List.pairwise_cons.mpr ⟨?_, ih cur htail⟩
      intro y hy
      have hcy : cur.start ≤ y.start := mergeLoop_start_le rest cur y htail hy
      have hlt : c.stop < cur.start := by omega
      exact ⟨Nat.le_trans (hhead cur (List.mem_cons_self _ _)) hcy,
        Nat.lt_of_lt_of_le hlt hcy⟩

/-- The merged section list is always sorted by start and pairwise
disjoint, whatever the raw detections were. -/
theorem mergeOverlappingSections_pairwise (sections : List TableSection) :
    List.Pairwise secR (mergeOverlappingSections sections) := by
  unfold mergeOverlappingSections
  have hs : List.Pairwise secLE (List.insertionSort secLE sections) :=
    List.sorted_insertionSort secLE sections
  cases h : List.insertionSort secLE sections with
  | nil => simp
  | cons s rest =>
    rw [h] at hs
    exact mergeLoop_pairwise rest s hs

/-- Clamping the upper slice bound at the text length is redundant. -/
theorem slice_min_len (t : List Char) (e k : Nat) :
    slice t e (min t.length k) = slice t e k := by
  unfold slice
  rcases Nat.le_total k t.length with hk | hk
  · rw [Nat.min_eq_right hk]
  · rw [Nat.min_eq_left hk]
    have hlen : (t.drop e).length = t.length - e := List.length_drop e t
    rw [List.take_of_length_le (by omega), List.take_of_length_le (by omega)]

/-- C7 (table chunk format): for every text, region bounds and header, the
emitted table chunk's content is: up to 200 characters of text before the
region, the `[TABLE: header]` marker, the raw table text, the
`[END TABLE]` marker, and up to 200 characters of text after the region;
its metadata records the table type, the header and the raw table text. -/
theorem createTableChunk_format (t : List Char) (s e : Nat)
    (header : List Char) :
    (createTableChunk t s e header).metadata =
      DocMeta.table header (slice t s e) ∧
    (createTableChunk t s e header).pageContent =
      slice t (s - 200) s ++ "\n\n[TABLE: ".data ++ header ++ "]\n".data ++
        slice t s e ++ "\n[END TABLE]\n\n".data ++ slice t e (e + 200) := by
  refine ⟨rfl, ?_⟩
  show slice t (s - 200) s ++ "\n\n[TABLE: ".data ++ header ++ "]\n".data ++
      slice t s e ++ "\n[END TABLE]\n\n".data ++
      slice t e (min t.length (e + 200)) = _
  rw [slice_min_len]

/-- C5 (merge tolerance): two sections ordered by start merge into one —
with maxed end offset and comma-joined headers — exactly when the later
section starts within 50 characters of the earlier one's end, and stay
separate otherwise. -/
theorem mergeOverlappingSections_tolerance (a b : TableSection)
    (h : secLE a b) :
    mergeOverlappingSections [a, b] =
      if b.start ≤ a.stop + 50 then [mergedSec a b] else [a, b] := by
  unfold mergeOverlappingSections
  have hsort : List.insertionSort secLE [a, b] = [a, b] := by
    simp [List.insertionSort, List.orderedInsert, if_pos h]
  rw [hsort]
  by_cases hgap : b.start ≤ a.stop + 50
  · rw [if_pos hgap]
    show mergeLoop a [b] = _
    unfold mergeLoop
    rw [if_pos hgap]
    rfl
  · rw [if_neg hgap]
    show mergeLoop a [b] = _
    unfold mergeLoop
    rw [if_neg hgap]
    rfl

/-- C5 witness: two concrete sections with gap 10 (≤ 50) merge; the
instantiated theorem also decides the opposite branch shape. -/
theorem mergeOverlappingSections_tolerance_witness :
    mergeOverlappingSections
        [{ start := 0, stop := 10, header := "Table 1.1".data },
         { start := 20, stop := 30, header := "Schedule A".data }] =
      (if (20 : Nat) ≤ 10 + 50 then
        [mergedSec { start := 0, stop := 10, header := "Table 1.1".data }
          { start := 20, stop := 30, header := "Schedule A".data }]
      else
        [{ start := 0, stop := 10, header := "Table 1.1".data },
         { start := 20, stop := 30, header := "Schedule A".data }]) :=
  mergeOverlappingSections_tolerance
    { start := 0, stop := 10, header := "Table 1.1".data }
    { start := 20, stop := 30, header := "Schedule A".data }
    (by decide)

/-- C6 (post-merge invariant): whenever `findTableSections` returns a
section list, that list is sorted by start offset and its sections are
pairwise disjoint. -/
theorem findTableSections_sorted_disjoint (t : List Char) (fuel : Nat)
    (l : List TableSection) (h : findTableSections t fuel = some l) :
    List.Pairwise secR l := by
  unfold findTableSections at h
  cases h1 : execPatterns t tablePatterns [0, 0, 0, 0, 0] with
  | none => rw [h1] at h; exact Option.noConfusion h
  | some pr =>
    obtain ⟨seeds, st⟩ := pr
    rw [h1] at h
    simp only [Option.map_eq_some'] at h
    obtain ⟨secs, _, hmerge⟩ := h
    rw [← hmerge]
    exact mergeOverlappingSections_pairwise secs

/-- C6 witness: a text with two detected sections; the returned list is
sorted and disjoint. -/
theorem findTableSections_sorted_disjoint_witness :
    List.Pairwise secR
      [{ start := 0, stop := 0, header := "Table 1.1".data },
       { start := 71, stop := 71, header := "Exhibit 2".data }] :=
  findTableSections_sorted_disjoint
    "Table 1.1\naaaaaaaaaaaaaaaaaaaaaaaaaaaaaaaaaaaaaaaaaaaaaaaaaaaaaaaaaaaa\nExhibit 2".data
    100 _ (by decide)

/-- C4 (no-table fallback): when the table patterns produce zero sections,
`splitTextIntoDocuments` returns exactly the result of invoking the
generic recursive splitter (`cd`, the inherited `createDocuments` with the
configured chunk size and overlap) directly on the whole text. -/
theorem splitTextIntoDocuments_fallback (cd : List Char → List Doc)
    (t : List Char) (fuel : Nat) (h : findTableSections t fuel = some []) :
    splitTextIntoDocuments cd t fuel = some (cd t) := by
  unfold splitTextIntoDocuments splitStateful
  unfold findTableSections at h
  cases h1 : execPatterns t tablePatterns [0, 0, 0, 0, 0] with
  | none => rw [h1] at h; exact Option.noConfusion h
  | some pr =>
    obtain ⟨seeds, st⟩ := pr
    rw [h1] at h
    dsimp only at h ⊢
    simp only [Option.map_eq_some'] at h
    obtain ⟨secs, hexp, hmerge⟩ := h
    rw [hexp]
    dsimp only
    rw [hmerge]
    rfl

/-- C4 witness: a plain text with no table match falls back to the generic
splitter. -/
theorem splitTextIntoDocuments_fallback_witness :
    splitTextIntoDocuments (splitPlain 1000 200 bankingSeps) "hello".data 3 =
      some (splitPlain 1000 200 bankingSeps "hello".data) :=
  splitTextIntoDocuments_fallback (splitPlain 1000 200 bankingSeps)
    "hello".data 3 (by decide)

/-- C9 (empty input): for every chunk size and overlap configuration the
chunker returns the empty chunk sequence on the empty string (no pattern
matches, and the generic splitter — modelled from the spec — produces no
chunks from no pieces). -/
theorem splitTextIntoDocuments_empty (cs co fuel : Nat) :
    splitTextIntoDocuments (splitPlain cs co bankingSeps) [] fuel = some [] :=
  rfl

/-- C10 (determinism / no state leak): a terminating run of the splitter
from the fresh-instance regex state returns that same all-zero state —
`exec` resets every pattern's `lastIndex` — so an immediately repeated
invocation on the same instance and text returns the identical chunk
sequence. -/
theorem splitStateful_deterministic (cd : List Char → List Doc)
    (t : List Char) (fuel : Nat) (d : List Doc) (st' : List Nat)
    (h : splitStateful cd t fuel [0, 0, 0, 0, 0] = some (d, st')) :
    st' = [0, 0, 0, 0, 0] ∧
      splitStateful cd t fuel st' = some (d, st') := by
  have hst : st' = [0, 0, 0, 0, 0] := by
    unfold splitStateful at h
    cases h1 : execPatterns t tablePatterns [0, 0, 0, 0, 0] with
    | none => rw [h1] at h; exact Option.noConfusion h
    | some pr =>
      obtain ⟨seeds, st1⟩ := pr
      have hst1 : st1 = [0, 0, 0, 0, 0] :=
        execPatterns_state t tablePatterns [0, 0, 0, 0, 0] seeds st1 h1
      rw [h1] at h
      dsimp only at h
      cases h2 : expandSeeds t fuel seeds with
      | none => rw [h2] at h; exact Option.noConfusion h
      | some secs =>
        rw [h2] at h
        dsimp only at h
        cases hm : mergeOverlappingSections secs with
        | nil =>
          rw [hm] at h
          dsimp only at h
          simp at h
          rw [← h.2, hst1]
        | cons s rest =>
          rw [hm] at h
          dsimp only at h
          simp at h
          rw [← h.2, hst1]
  exact ⟨hst, by rw [hst] at h ⊢; exact h⟩

/-- C10 witness: a concrete run from the fresh state returns the all-zero
state and re-running yields the same chunks. -/
theorem splitStateful_deterministic_witness :
    ([0, 0, 0, 0, 0] : List Nat) = [0, 0, 0, 0, 0] ∧
      splitStateful (splitPlain 1000 200 bankingSeps) "abc".data 5
          [0, 0, 0, 0, 0] =
        some ([{ pageContent := "abc".data, metadata := DocMeta.plain }],
          [0, 0, 0, 0, 0]) :=
  splitStateful_deterministic (splitPlain 1000 200 bankingSeps) "abc".data 5
    [{ pageContent := "abc".data, metadata := DocMeta.plain }]
    [0, 0, 0, 0, 0] (by decide)

/-- When the seed's own line is a table line that does not start the text,
`expandTableContext` diverges for every fuel: the backward loop's
`findLineStart(text, start - 1)` lands on `start` again. -/
theorem expandTableContext_none (t : List Char) (i : Nat)
    (hls : findLineStart t i = i) (hc : backCond t i = true)
    (hf : findLineStart t (i - 1) = i) :
    ∀ fuel, expandTableContext t i fuel = none := by
  intro fuel
  unfold expandTableContext
  rw [hls, expandBack_fix t i hc hf fuel i]

/-- C2 (order preservation and coverage): refuted — on the input
`"a\n|x|y|"` (a pipe-delimited row on the second line) the splitter never
returns any chunk sequence at all: the backward-expansion loop of
`expandTableContext` diverges, so no fuel suffices. -/
theorem splitTextIntoDocuments_c2_diverges :
    ∀ (cd : List Char → List Doc) (fuel : Nat),
      splitTextIntoDocuments cd "a\n|x|y|".data fuel = none := by
  intro cd fuel
  unfold splitTextIntoDocuments splitStateful
  rw [show execPatterns "a\n|x|y|".data tablePatterns [0, 0, 0, 0, 0] =
      some ([(2, 7)], [0, 0, 0, 0, 0]) from by decide]
  dsimp only
  have hx : expandSeeds "a\n|x|y|".data fuel [(2, 7)] = none := by
    unfold expandSeeds
    rw [expandTableContext_none "a\n|x|y|".data 2 (by decide) (by decide)
      (by decide) fuel]
  rw [hx]
  rfl

/-- C8 (totality): refuted — on the well-formed two-row table input
`"ab\n|1|2|"` the function does not return normally: it diverges for every
fuel, because the backward-expansion loop never makes progress. -/
theorem splitTextIntoDocuments_c8_diverges :
    ∀ (cd : List Char → List Doc) (fuel : Nat),
      splitTextIntoDocuments cd "ab\n|1|2|".data fuel = none := by
  intro cd fuel
  unfold splitTextIntoDocuments splitStateful
  rw [show execPatterns "ab\n|1|2|".data tablePatterns [0, 0, 0, 0, 0] =
      some ([(3, 8)], [0, 0, 0, 0, 0]) from by decide]
  dsimp only
  have hx : expandSeeds "ab\n|1|2|".data fuel [(3, 8)] = none := by
    unfold expandSeeds
    rw [expandTableContext_none "ab\n|1|2|".data 3 (by decide) (by decide)
      (by decide) fuel]
  rw [hx]
  rfl

/-- C1 (table atomicity): refuted — on `"abc\nTable 1.1"` the caption
pattern matches `"Table 1.1"`, the splitter terminates and emits exactly
one table chunk, but that chunk's `table_content` metadata is the empty
string, which does not contain the matched text verbatim (the expansion
returned the empty span at the seed). -/
theorem splitTextIntoDocuments_c1_empty_table :
    (splitTextIntoDocuments (splitPlain 1000 200 bankingSeps)
        "abc\nTable 1.1".data 100).map (fun l => l.filterMap tableMetaOf) =
      some [("Table 1.1".data, ([] : List Char))] ∧
    containsSeq "Table 1.1".data [] = false := by
  constructor
  · decide
  · decide

/-- C3 (region expansion maximality): refuted — on `"Table 1.1\n|a|b|"`
the seed at offset 0 is a genuine caption match, the following line
`"|a|b|"` (offsets 10–15) satisfies the table-line predicate, yet
`expandTableContext` returns the empty span `(0, 0)`: the forward loop
never extends (its guard always tests an empty slice). -/
theorem expandTableContext_c3_not_maximal :
    matchTableCaption "Table 1.1\n|a|b|".data 0 = some 9 ∧
    isTableLine (slice "Table 1.1\n|a|b|".data 10
      (findLineEnd "Table 1.1\n|a|b|".data 10)) = true ∧
    expandTableContext "Table 1.1\n|a|b|".data 0 100 = some (0, 0) := by
  refine ⟨by decide, by decide, by decide⟩

end Banking
